import Mathlib

/-!
Verification development for the Markdown2Paper plugin.

The TypeScript sources are shallowly embedded below:
* `src/utils/markdown-parser.ts` — `preprocessMarkdown` (the normalizer) and the
  passes of `parseMarkdown` (title determination, reference tagging, citation
  extraction);
* `src/pdf/formatters/apa-formatter.ts` — `renderTextFlowWithIndent` (the
  text-flow engine) and `getPageSetup`;
* `src/pdf/formatters/base-formatter.ts` — `extractTextSegments`;
* `src/pdf/pdf-generator.ts` and `formatter-factory.ts` — the document
  renderer's node loop and the format-style factory.

Modelling conventions: JavaScript strings are Lean `String`s (scanners recurse
on `String.data`); mdast trees are encoded as the sibling-linked forest
`NodeF` (a node's `children` array is a `NodeF` chain ending in `nilN`);
point coordinates are rationals; the external pieces (jsPDF text measurement,
the MathJax renderer, js-yaml) enter as function parameters.
-/

namespace M2P

/-! ### Character and string utilities (JS `trim`, `split`, `includes`) -/

/-- JS whitespace test restricted to the ASCII whitespace that can occur in a
line of the document (`\s` of the JS regexes). -/
def isWsChar (c : Char) : Bool := c.isWhitespace

/-- `String.prototype.trim` on a character list. -/
def trimChars (l : List Char) : List Char :=
  ((l.dropWhile isWsChar).reverse.dropWhile isWsChar).reverse

/-- `String.prototype.trim`. -/
def jsTrim (s : String) : String := String.mk (trimChars s.data)

/-- `s.startsWith("\x60\x60\x60")` — does the list start with three backticks? -/
def startsWithFence (l : List Char) : Bool :=
  match l with
  | c1 :: c2 :: c3 :: _ => c1 = '`' && c2 = '`' && c3 = '`'
  | _ => false

/-- Does the string contain the character (JS `includes` with a one-char
needle)? -/
def containsChar (s : String) (c : Char) : Bool := s.data.contains c

/-! ### Citation scanner

`parseMarkdown` collects citations with

  `const regex = /\[@(.*?)\]/g; while ((match = regex.exec(node.value)) ...)
     if (match[1]) citations.push(match[1]);`

The global lazy regex is realised as a left-to-right scan: after seeing
`[@`, the key is the run of characters up to the first `]` (the lazy group
cannot cross a `]`); a line terminator aborts the match (`.` matches neither
`\n` nor `\r`), and an aborted attempt leaves no earlier restart-position
match behind (any inner `[@` would meet the same terminator first).  Keys
that are empty are dropped by the `if (match[1])` truthiness guard. -/

inductive CitState where
  | outside : CitState
  | sawBracket : CitState
  | inKey (revKey : List Char) : CitState
deriving DecidableEq, Repr

/-- One character of the citation scan. -/
def citStep : CitState × List String → Char → CitState × List String
  | (CitState.outside, acc), c =>
      (if c = '[' then CitState.sawBracket else CitState.outside, acc)
  | (CitState.sawBracket, acc), c =>
      if c = '@' then (CitState.inKey [], acc)
      else if c = '[' then (CitState.sawBracket, acc)
      else (CitState.outside, acc)
  | (CitState.inKey rk, acc), c =>
      if c = ']' then
        (CitState.outside, if rk = [] then acc else acc ++ [String.mk rk.reverse])
      else if c = '\n' ∨ c = '\r' then (CitState.outside, acc)
      else (CitState.inKey (c :: rk), acc)

/-- All citation keys matched in one text value, in order, duplicates kept,
empty keys dropped. -/
def scanCitations (s : String) : List String :=
  (s.data.foldl citStep (CitState.outside, [])).2

/-! ### The mdast tree

A unist node is one of the constructors below; the `children` array of a
container is a sibling-linked `NodeF` chain and every constructor carries the
chain of its following siblings, so a whole `children` array is a single
`NodeF` value.  `heading` carries the `node.data.isReferenceSection` flag set
by the tagging pass.  `container` stands for any other node kind that has
children (e.g. `link`, `tableRow`, `tableCell`); `leaf` for any other node
kind without children (e.g. `thematicBreak`, `image`). -/

inductive NodeF where
  | nilN : NodeF
  | text (value : String) (sib : NodeF) : NodeF
  | inlineCode (value : String) (sib : NodeF) : NodeF
  | inlineMath (value : String) (sib : NodeF) : NodeF
  | strong (children : NodeF) (sib : NodeF) : NodeF
  | emphasis (children : NodeF) (sib : NodeF) : NodeF
  | heading (depth : Nat) (isRef : Bool) (children : NodeF) (sib : NodeF) : NodeF
  | paragraph (children : NodeF) (sib : NodeF) : NodeF
  | yaml (value : String) (sib : NodeF) : NodeF
  | codeBlock (value : String) (sib : NodeF) : NodeF
  | listNode (ordered : Bool) (children : NodeF) (sib : NodeF) : NodeF
  | listItem (children : NodeF) (sib : NodeF) : NodeF
  | blockquote (children : NodeF) (sib : NodeF) : NodeF
  | container (children : NodeF) (sib : NodeF) : NodeF
  | leaf (sib : NodeF) : NodeF
deriving DecidableEq, Repr

/-- The values of all `text` nodes in preorder (the order `unist-util-visit`
delivers them: node, then children, then following siblings). -/
def collectTexts : NodeF → List String
  | NodeF.nilN => []
  | NodeF.text v sib => v :: collectTexts sib
  | NodeF.inlineCode _ sib => collectTexts sib
  | NodeF.inlineMath _ sib => collectTexts sib
  | NodeF.strong ch sib => collectTexts ch ++ collectTexts sib
  | NodeF.emphasis ch sib => collectTexts ch ++ collectTexts sib
  | NodeF.heading _ _ ch sib => collectTexts ch ++ collectTexts sib
  | NodeF.paragraph ch sib => collectTexts ch ++ collectTexts sib
  | NodeF.yaml _ sib => collectTexts sib
  | NodeF.codeBlock _ sib => collectTexts sib
  | NodeF.listNode _ ch sib => collectTexts ch ++ collectTexts sib
  | NodeF.listItem ch sib => collectTexts ch ++ collectTexts sib
  | NodeF.blockquote ch sib => collectTexts ch ++ collectTexts sib
  | NodeF.container ch sib => collectTexts ch ++ collectTexts sib
  | NodeF.leaf sib => collectTexts sib

/-- The citation pass of `parseMarkdown`: `visit(tree, "text", ...)` running
the citation regex on every text value, keys appended in visit order. -/
def citationsOf : NodeF → List String
  | NodeF.nilN => []
  | NodeF.text v sib => scanCitations v ++ citationsOf sib
  | NodeF.inlineCode _ sib => citationsOf sib
  | NodeF.inlineMath _ sib => citationsOf sib
  | NodeF.strong ch sib => citationsOf ch ++ citationsOf sib
  | NodeF.emphasis ch sib => citationsOf ch ++ citationsOf sib
  | NodeF.heading _ _ ch sib => citationsOf ch ++ citationsOf sib
  | NodeF.paragraph ch sib => citationsOf ch ++ citationsOf sib
  | NodeF.yaml _ sib => citationsOf sib
  | NodeF.codeBlock _ sib => citationsOf sib
  | NodeF.listNode _ ch sib => citationsOf ch ++ citationsOf sib
  | NodeF.listItem ch sib => citationsOf ch ++ citationsOf sib
  | NodeF.blockquote ch sib => citationsOf ch ++ citationsOf sib
  | NodeF.container ch sib => citationsOf ch ++ citationsOf sib
  | NodeF.leaf sib => citationsOf sib

/-- Concatenation of every text value below a forest (used to talk about "the
text" of a heading). -/
def flattenText (f : NodeF) : String := String.join (collectTexts f)

/-! ### Title determination (`parseMarkdown`, markdown-parser.ts 261-295)

The code sets `title = "Untitled"`, looks for a `yaml` node, loads it with
js-yaml and, when `frontmatter.title` is truthy, takes it as the title and
leaves the tree alone.  Otherwise it looks for the first top-level heading
with `depth === 1`, `children.length > 0` and `children[0].type === "text"`,
takes `children[0].value` as the title and splices that node out of
`tree.children`.  The YAML loader is external; its result enters as the
`Option String` value of the title field (`none` = absent / load failure,
values restricted to strings). -/

/-- JS truthiness of `frontmatter.title` (an absent field or the empty string
is falsy). -/
def titleTruthy : Option String → Bool
  | some s => !(s = "")
  | none => false

/-- The first `yaml` node's raw value among the top-level children. -/
def findYamlValue : NodeF → Option String
  | NodeF.yaml v _ => some v
  | NodeF.nilN => none
  | NodeF.text _ sib => findYamlValue sib
  | NodeF.inlineCode _ sib => findYamlValue sib
  | NodeF.inlineMath _ sib => findYamlValue sib
  | NodeF.strong _ sib => findYamlValue sib
  | NodeF.emphasis _ sib => findYamlValue sib
  | NodeF.heading _ _ _ sib => findYamlValue sib
  | NodeF.paragraph _ sib => findYamlValue sib
  | NodeF.codeBlock _ sib => findYamlValue sib
  | NodeF.listNode _ _ sib => findYamlValue sib
  | NodeF.listItem _ sib => findYamlValue sib
  | NodeF.blockquote _ sib => findYamlValue sib
  | NodeF.container _ sib => findYamlValue sib
  | NodeF.leaf sib => findYamlValue sib

/-- The `findIndex` condition: a heading of depth 1 whose first child is a
text node. -/
def isTextH1 : NodeF → Bool
  | NodeF.heading 1 _ (NodeF.text _ _) _ => true
  | _ => false

/-- `findIndex` + `splice`: find the first top-level depth-1 heading whose
first child is a text node; return that text value and the sibling chain with
the node removed. -/
def extractH1 : NodeF → Option (String × NodeF)
  | NodeF.nilN => none
  | NodeF.heading 1 _ (NodeF.text v _) sib => some (v, sib)
  | NodeF.heading d r ch sib =>
      (extractH1 sib).map fun p => (p.1, NodeF.heading d r ch p.2)
  | NodeF.text v sib => (extractH1 sib).map fun p => (p.1, NodeF.text v p.2)
  | NodeF.inlineCode v sib => (extractH1 sib).map fun p => (p.1, NodeF.inlineCode v p.2)
  | NodeF.inlineMath v sib => (extractH1 sib).map fun p => (p.1, NodeF.inlineMath v p.2)
  | NodeF.strong ch sib => (extractH1 sib).map fun p => (p.1, NodeF.strong ch p.2)
  | NodeF.emphasis ch sib => (extractH1 sib).map fun p => (p.1, NodeF.emphasis ch p.2)
  | NodeF.paragraph ch sib => (extractH1 sib).map fun p => (p.1, NodeF.paragraph ch p.2)
  | NodeF.yaml v sib => (extractH1 sib).map fun p => (p.1, NodeF.yaml v p.2)
  | NodeF.codeBlock v sib => (extractH1 sib).map fun p => (p.1, NodeF.codeBlock v p.2)
  | NodeF.listNode o ch sib => (extractH1 sib).map fun p => (p.1, NodeF.listNode o ch p.2)
  | NodeF.listItem ch sib => (extractH1 sib).map fun p => (p.1, NodeF.listItem ch p.2)
  | NodeF.blockquote ch sib => (extractH1 sib).map fun p => (p.1, NodeF.blockquote ch p.2)
  | NodeF.container ch sib => (extractH1 sib).map fun p => (p.1, NodeF.container ch p.2)
  | NodeF.leaf sib => (extractH1 sib).map fun p => (p.1, NodeF.leaf p.2)

/-- The title-determination pass of `parseMarkdown`, given the loaded
front-matter title field and the parsed tree; returns the title and the
(possibly spliced) tree. -/
def parseTitleCore (fmTitle : Option String) (tree : NodeF) : String × NodeF :=
  if titleTruthy fmTitle then (fmTitle.getD "", tree)
  else
    match extractH1 tree with
    | some p => p
    | none => ("Untitled", tree)

/-- The full pass including the yaml-node lookup, parameterised by the
external YAML loader's extraction of the `title` field. -/
def parseTitle (loadTitleField : String → Option String) (tree : NodeF) :
    String × NodeF :=
  parseTitleCore ((findYamlValue tree).bind loadTitleField) tree

/-! Specification-side observations used to state the amended title claim:
existence, first value, erasure and count of depth-1 headings whose first
child is a text node, each defined by its own plain recursion over the
top-level chain. -/

/-- Is there any top-level depth-1 heading (regardless of its children)? -/
def hasH1 : NodeF → Bool
  | NodeF.nilN => false
  | NodeF.heading 1 _ _ _ => true
  | NodeF.heading _ _ _ sib => hasH1 sib
  | NodeF.text _ sib => hasH1 sib
  | NodeF.inlineCode _ sib => hasH1 sib
  | NodeF.inlineMath _ sib => hasH1 sib
  | NodeF.strong _ sib => hasH1 sib
  | NodeF.emphasis _ sib => hasH1 sib
  | NodeF.paragraph _ sib => hasH1 sib
  | NodeF.yaml _ sib => hasH1 sib
  | NodeF.codeBlock _ sib => hasH1 sib
  | NodeF.listNode _ _ sib => hasH1 sib
  | NodeF.listItem _ sib => hasH1 sib
  | NodeF.blockquote _ sib => hasH1 sib
  | NodeF.container _ sib => hasH1 sib
  | NodeF.leaf sib => hasH1 sib

/-- Is there a top-level depth-1 heading whose first child is a text node? -/
def hasTextH1 : NodeF → Bool
  | NodeF.nilN => false
  | NodeF.heading 1 _ (NodeF.text _ _) _ => true
  | NodeF.heading _ _ _ sib => hasTextH1 sib
  | NodeF.text _ sib => hasTextH1 sib
  | NodeF.inlineCode _ sib => hasTextH1 sib
  | NodeF.inlineMath _ sib => hasTextH1 sib
  | NodeF.strong _ sib => hasTextH1 sib
  | NodeF.emphasis _ sib => hasTextH1 sib
  | NodeF.paragraph _ sib => hasTextH1 sib
  | NodeF.yaml _ sib => hasTextH1 sib
  | NodeF.codeBlock _ sib => hasTextH1 sib
  | NodeF.listNode _ _ sib => hasTextH1 sib
  | NodeF.listItem _ sib => hasTextH1 sib
  | NodeF.blockquote _ sib => hasTextH1 sib
  | NodeF.container _ sib => hasTextH1 sib
  | NodeF.leaf sib => hasTextH1 sib

/-- How many top-level depth-1 headings with a leading text child there are. -/
def countTextH1 : NodeF → Nat
  | NodeF.nilN => 0
  | NodeF.heading 1 _ (NodeF.text _ _) sib => countTextH1 sib + 1
  | NodeF.heading _ _ _ sib => countTextH1 sib
  | NodeF.text _ sib => countTextH1 sib
  | NodeF.inlineCode _ sib => countTextH1 sib
  | NodeF.inlineMath _ sib => countTextH1 sib
  | NodeF.strong _ sib => countTextH1 sib
  | NodeF.emphasis _ sib => countTextH1 sib
  | NodeF.paragraph _ sib => countTextH1 sib
  | NodeF.yaml _ sib => countTextH1 sib
  | NodeF.codeBlock _ sib => countTextH1 sib
  | NodeF.listNode _ _ sib => countTextH1 sib
  | NodeF.listItem _ sib => countTextH1 sib
  | NodeF.blockquote _ sib => countTextH1 sib
  | NodeF.container _ sib => countTextH1 sib
  | NodeF.leaf sib => countTextH1 sib

/-! ### Inline segment extraction (`extractTextSegments`, base-formatter.ts
124-176 / apa-formatter.ts 398-456)

Text nodes inherit the accumulated bold/italic flags; `strong`/`emphasis`
set one flag for their subtree; `inlineCode` and `inlineMath` segments are
emitted with both flags `false`; any other node with children is recursed
into with the inherited flags; childless other nodes contribute nothing. -/

structure TextSegment where
  text : String
  bold : Bool
  italic : Bool
  code : Bool
  latex : Option Bool := none
deriving DecidableEq, Repr

def extractTextSegments : NodeF → Bool → Bool → List TextSegment
  | NodeF.nilN, _, _ => []
  | NodeF.text v sib, b, i =>
      ⟨v, b, i, false, none⟩ :: extractTextSegments sib b i
  | NodeF.strong ch sib, b, i =>
      extractTextSegments ch true i ++ extractTextSegments sib b i
  | NodeF.emphasis ch sib, b, i =>
      extractTextSegments ch b true ++ extractTextSegments sib b i
  | NodeF.inlineCode v sib, b, i =>
      ⟨v, false, false, true, none⟩ :: extractTextSegments sib b i
  | NodeF.inlineMath v sib, b, i =>
      ⟨v, false, false, false, some false⟩ :: extractTextSegments sib b i
  | NodeF.heading _ _ ch sib, b, i =>
      extractTextSegments ch b i ++ extractTextSegments sib b i
  | NodeF.paragraph ch sib, b, i =>
      extractTextSegments ch b i ++ extractTextSegments sib b i
  | NodeF.listNode _ ch sib, b, i =>
      extractTextSegments ch b i ++ extractTextSegments sib b i
  | NodeF.listItem ch sib, b, i =>
      extractTextSegments ch b i ++ extractTextSegments sib b i
  | NodeF.blockquote ch sib, b, i =>
      extractTextSegments ch b i ++ extractTextSegments sib b i
  | NodeF.container ch sib, b, i =>
      extractTextSegments ch b i ++ extractTextSegments sib b i
  | NodeF.yaml _ sib, b, i => extractTextSegments sib b i
  | NodeF.codeBlock _ sib, b, i => extractTextSegments sib b i
  | NodeF.leaf sib, b, i => extractTextSegments sib b i

/-! ### The normalizer (`preprocessMarkdown`, markdown-parser.ts 46-187)

The table divider test
`/^\s*\|?\s*:?-+:?\s*(\|\s*:?-+:?\s*)+\|?\s*$/` is realised as a
deterministic automaton over the line's characters: leading whitespace, an
optional leading pipe, a first dash cell `:?-+:?`, then at least one further
`| :?-+:?` cell (so the counter must reach 2), with an optional trailing
pipe and trailing whitespace.  The regex is unambiguous on its alphabet
(whitespace, `|`, `:`, `-` are pairwise distinct), except that a `|` after a
completed cell may be a new cell's separator or the trailing pipe — the
`sawPipe` state resolves this by what follows. -/

inductive DivState where
  | start : DivState
  | afterLeadPipe : DivState
  | needDash (n : Nat) : DivState
  | dashes (n : Nat) : DivState
  | afterSeg (n : Nat) : DivState
  | sawPipe (n : Nat) : DivState
  | reject : DivState
deriving DecidableEq, Repr

def divStep : DivState → Char → DivState
  | DivState.start, c =>
      if isWsChar c then DivState.start
      else if c = '|' then DivState.afterLeadPipe
      else if c = ':' then DivState.needDash 0
      else if c = '-' then DivState.dashes 0
      else DivState.reject
  | DivState.afterLeadPipe, c =>
      if isWsChar c then DivState.afterLeadPipe
      else if c = ':' then DivState.needDash 0
      else if c = '-' then DivState.dashes 0
      else DivState.reject
  | DivState.needDash n, c =>
      if c = '-' then DivState.dashes n else DivState.reject
  | DivState.dashes n, c =>
      if c = '-' then DivState.dashes n
      else if c = ':' then DivState.afterSeg (n + 1)
      else if isWsChar c then DivState.afterSeg (n + 1)
      else if c = '|' then DivState.sawPipe (n + 1)
      else DivState.reject
  | DivState.afterSeg n, c =>
      if isWsChar c then DivState.afterSeg n
      else if c = '|' then DivState.sawPipe n
      else DivState.reject
  | DivState.sawPipe n, c =>
      if isWsChar c then DivState.sawPipe n
      else if c = ':' then DivState.needDash n
      else if c = '-' then DivState.dashes n
      else DivState.reject
  | DivState.reject, _ => DivState.reject

def divAccept : DivState → Bool
  | DivState.dashes n => decide (2 ≤ n + 1)
  | DivState.afterSeg n => decide (2 ≤ n)
  | DivState.sawPipe n => decide (2 ≤ n)
  | _ => false

/-- `tableDividerPattern.test(line)`. -/
def dividerMatch (s : String) : Bool :=
  divAccept (s.data.foldl divStep DivState.start)

/-- `isTableStart` (markdown-parser.ts 56-61): the line contains `|` and the
following line (or `""` when there is none) matches the divider pattern. -/
def isTableStart (line next : String) : Bool :=
  containsChar line '|' && dividerMatch next

/-! Obsidian embed rewriting: `/!\[\[([^\]]+)\]\]/g`, replaced by
`![alt](target)` with spaces of the target percent-encoded.  The inner group
cannot cross a `]`, so a match is `![[`, at least one non-`]` character, then
`]]`; a failed attempt resumes one character further on. -/

/-- After `![[`: the inner run up to the first `]`, which must be directly
followed by a second `]`; fails on an empty inner run (handled by the
caller), a lone `]`, or end of input. -/
def innerScan : List Char → Option (List Char × List Char)
  | [] => none
  | [_] => none
  | c :: c2 :: rest =>
      if c = ']' then (if c2 = ']' then some ([], rest) else none)
      else (innerScan (c2 :: rest)).map fun p => (c :: p.1, p.2)

def findInner (l : List Char) : Option (List Char × List Char) :=
  match l with
  | [] => none
  | c :: _ => if c = ']' then none else innerScan l

/-- `inner.split("|")` and destructuring of the first two parts. -/
def splitBar (l : List Char) : List Char × Option (List Char) :=
  let t := l.takeWhile fun c => !(c = '|')
  match l.dropWhile (fun c => !(c = '|')) with
  | [] => (t, none)
  | _ :: rest => (t, some (rest.takeWhile fun c => !(c = '|')))

/-- The replacement `![safeAlt](encodedTarget)`. -/
def embedSubst (inner : List Char) : List Char :=
  let p := splitBar inner
  let target := trimChars p.1
  let alt := match p.2 with
    | some a => trimChars a
    | none => []
  let encoded := target.foldr
    (fun c acc => if c = ' ' then '%' :: '2' :: '0' :: acc else c :: acc) []
  '!' :: '[' :: (alt ++ ']' :: '(' :: (encoded ++ [')']))

/-- The global replace, fuelled by the input length (each step consumes at
least one character, so the fuel never runs out on `fuel = l.length`). -/
def embedRewriteF : Nat → List Char → List Char
  | 0, l => l
  | _ + 1, [] => []
  | _ + 1, [c] => [c]
  | _ + 1, [c, c2] => [c, c2]
  | f + 1, c :: c2 :: c3 :: rest =>
      if c = '!' ∧ c2 = '[' ∧ c3 = '[' then
        match findInner rest with
        | some p => embedSubst p.1 ++ embedRewriteF f p.2
        | none => '!' :: embedRewriteF f ('[' :: '[' :: rest)
      else c :: embedRewriteF f (c2 :: c3 :: rest)

/-- `line.replace(obsidianEmbedPattern, ...)` (`normalizeLine`). -/
def embedRewrite (s : String) : String :=
  String.mk (embedRewriteF s.data.length s.data)

/-! Display-math isolation: `expandDisplayMathInLine` repeatedly slices out
the first complete `$$...$$` span, emitting the trimmed leading text, a blank
line, the span, and a blank line; the trimmed remainder is reprocessed and,
when no further complete span exists, emitted if non-empty.  A line without a
complete span is returned unchanged. -/

/-- Text before the first `$$` and the rest after it, if any. -/
def findDD : List Char → Option (List Char × List Char)
  | [] => none
  | [_] => none
  | c :: c2 :: rest =>
      if c = '$' ∧ c2 = '$' then some ([], rest)
      else (findDD (c2 :: rest)).map fun p => (c :: p.1, p.2)

/-- The first complete `$$...$$` span: text before, the span with its
delimiters, text after. -/
def splitDD (l : List Char) : Option (List Char × List Char × List Char) :=
  match findDD l with
  | none => none
  | some p =>
      match findDD p.2 with
      | none => none
      | some q => some (p.1, '$' :: '$' :: (q.1 ++ ['$', '$']), q.2)

/-- The `while remaining.includes("$$")` loop, fuelled by the input length
(each iteration consumes the four span delimiters). -/
def expandLoopF : Nat → List Char → List (List Char)
  | 0, rem => if rem = [] then [] else [rem]
  | f + 1, rem =>
      match splitDD rem with
      | none => if rem = [] then [] else [rem]
      | some (b, m, a) =>
          (if trimChars b = [] then [] else [trimChars b]) ++
            ([] :: trimChars m :: [] :: expandLoopF f (trimChars a))

def expandDisplayMathInLine (l : List Char) : List (List Char) :=
  match splitDD l with
  | none => [l]
  | some _ => expandLoopF l.length l

def expandLine (s : String) : List String :=
  (expandDisplayMathInLine s.data).map String.mk

/-! The main per-line loop.  The accumulated output is kept reversed (head =
most recently emitted line); the side table of captured table blocks is kept
in order of detection.  The loop's modes mirror the TS state: front-matter,
code fence, normal, and — replacing the in-place index jump of the TS inner
loop — a `tableDiv` mode holding the pending table block while the divider
line is consumed verbatim and a `tableRows` mode for the following
separator-containing lines, after which the stopping line is reprocessed as
a normal line. -/

/-- `result[result.length - 1]?.trim() !== ''` together with
`result.length > 0`. -/
def lastNonblank (acc : List String) : Bool :=
  match acc with
  | [] => false
  | a :: _ => !(jsTrim a = "")

/-- Push a blank separator unless the previous emitted line is blank or
nothing has been emitted yet. -/
def pushBlankSep (acc : List String) : List String :=
  if lastNonblank acc then "" :: acc else acc

/-- Push a content line, preceded by a blank separator when needed. -/
def pushContent (acc : List String) (s : String) : List String :=
  if lastNonblank acc then s :: "" :: acc else s :: acc

/-- The `for (const expandedLine of expandedLines)` loop. -/
def pushExpanded (acc : List String) : List String → List String
  | [] => acc
  | el :: rest =>
      pushExpanded
        (if jsTrim el = "" then pushBlankSep acc else pushContent acc el) rest

inductive PPMode where
  | normal : PPMode
  | code : PPMode
  | fm : PPMode
  | tableDiv (pending : List String) : PPMode
  | tableRows (pending : List String) : PPMode
deriving DecidableEq, Repr

/-- Handling of one line in normal mode, with the following line available
for the table-start lookahead; returns the next mode and the updated output
and table accumulator. -/
def handleNormalLine (line nextLine : String) (acc : List String)
    (tbs : List (List String)) : PPMode × List String × List (List String) :=
  if startsWithFence (jsTrim line).data then (PPMode.code, line :: acc, tbs)
  else if jsTrim line = "" then (PPMode.normal, acc, tbs)
  else if isTableStart line nextLine then
    (PPMode.tableDiv [embedRewrite line],
     ("[[[TABLE_" ++ toString tbs.length ++ "]]]") :: pushBlankSep acc, tbs)
  else (PPMode.normal, pushExpanded acc (expandLine (embedRewrite line)), tbs)

def ppLoop : List String → PPMode → List String → List (List String) →
    List String × List (List String)
  | [], PPMode.tableDiv pend, acc, tbs => (acc.reverse, tbs ++ [pend ++ [""]])
  | [], PPMode.tableRows pend, acc, tbs => (acc.reverse, tbs ++ [pend])
  | [], _, acc, tbs => (acc.reverse, tbs)
  | line :: rest, PPMode.fm, acc, tbs =>
      if jsTrim line = "---" then ppLoop rest PPMode.normal ("" :: line :: acc) tbs
      else ppLoop rest PPMode.fm (line :: acc) tbs
  | line :: rest, PPMode.code, acc, tbs =>
      if startsWithFence (jsTrim line).data then
        ppLoop rest PPMode.normal (line :: acc) tbs
      else ppLoop rest PPMode.code (line :: acc) tbs
  | line :: rest, PPMode.tableDiv pend, acc, tbs =>
      ppLoop rest (PPMode.tableRows (pend ++ [line])) acc tbs
  | line :: rest, PPMode.tableRows pend, acc, tbs =>
      if !(jsTrim line = "") && containsChar line '|' then
        ppLoop rest (PPMode.tableRows (pend ++ [embedRewrite line])) acc tbs
      else
        let s := handleNormalLine line (rest.headD "") acc (tbs ++ [pend])
        ppLoop rest s.1 s.2.1 s.2.2
  | line :: rest, PPMode.normal, acc, tbs =>
      let s := handleNormalLine line (rest.headD "") acc tbs
      ppLoop rest s.1 s.2.1 s.2.2

/-- `preprocessMarkdown` at the level of the line stream: front-matter mode
opens only when the very first line is the `---` delimiter. -/
def preprocessLines : List String → List String × List (List String)
  | [] => ([], [])
  | l0 :: rest =>
      if jsTrim l0 = "---" then ppLoop rest PPMode.fm [l0] []
      else ppLoop (l0 :: rest) PPMode.normal [] []

/-- `preprocessMarkdown` on the raw source string. -/
def preprocessMarkdown (content : String) : String × List (List String) :=
  let r := preprocessLines (content.splitOn "\n")
  (String.intercalate "\n" r.1, r.2)

/-! ### Page setup (`getPageSetup`, apa-formatter.ts 468-485)

Margins from the settings are inches, multiplied by 72; font size 12pt at
double spacing; the page is US Letter portrait (612 × 792 pt from the jsPDF
constructor in pdf-generator.ts). -/

structure MarginsIn where
  top : ℚ
  right : ℚ
  bottom : ℚ
  left : ℚ
deriving DecidableEq, Repr

structure PageSetup where
  mTop : ℚ
  mRight : ℚ
  mBottom : ℚ
  mLeft : ℚ
  fontSize : ℚ
  lineHeight : ℚ
  pageW : ℚ
  pageH : ℚ
deriving DecidableEq, Repr

def apaGetPageSetup (m : MarginsIn) : PageSetup :=
  ⟨m.top * 72, m.right * 72, m.bottom * 72, m.left * 72, 12, 2, 612, 792⟩

/-! ### The text-flow engine (`renderTextFlowWithIndent`,
apa-formatter.ts 195-309)

External behaviour enters through the configuration: `w` is jsPDF's
`getTextWidth` under the segment's active font, `latexSize` the MathJax
result (width, height) for a math source (`none` when resolution fails, in
which case a bracketed `[Math: ...]` placeholder is drawn like plain text
with no wrap check, exactly as both the `null`-result and the `catch`
branches of the source do), and `wFallback` the measured width of that
placeholder text. -/

structure FlowCfg where
  maxW : ℚ
  firstX : ℚ
  subX : ℚ
  lineHPt : ℚ
  pageH : ℚ
  mTop : ℚ
  mBottom : ℚ
  fontSize : ℚ
  w : TextSegment → String → ℚ
  latexSize : String → Bool → Option (ℚ × ℚ)
  wFallback : String → ℚ

/-- The mutable locals of the wrap loop: `currentX`, `this.y`,
`isFirstLine`, `currentLineHeight`, plus a page counter recording
`doc.addPage()` calls. -/
structure FlowSt where
  x : ℚ
  y : ℚ
  isFirstLine : Bool
  lh : ℚ
  page : Nat
deriving DecidableEq, Repr

inductive FlowEv where
  | txt (tok : String) (x y : ℚ) : FlowEv
  | svg (src : String) (x y w h : ℚ) : FlowEv
deriving DecidableEq, Repr

/-- `isFirstLine ? firstLineX : subsequentLineX`. -/
def lineStartOf (cfg : FlowCfg) (st : FlowSt) : ℚ :=
  if st.isFirstLine then cfg.firstX else cfg.subX

/-- The `newLine` closure: advance `y` by the current line height, reset `x`
to the subsequent-line offset, then break the page when the next line's
bottom would pass the usable height. -/
def newLineF (cfg : FlowCfg) (st : FlowSt) : FlowSt :=
  let y1 := st.y + st.lh
  if y1 + cfg.lineHPt > cfg.pageH - cfg.mBottom then
    ⟨cfg.subX, cfg.mTop, false, cfg.lineHPt, st.page + 1⟩
  else ⟨cfg.subX, y1, false, cfg.lineHPt, st.page⟩

/-- One token of the wrap loop (apa-formatter.ts 283-305): empty tokens are
skipped; a token that would overrun the max width while the cursor is
strictly past the line start triggers one `newLine`, after which a
whitespace-only token is dropped and any other token is drawn at the new
cursor; otherwise the token is drawn in place.  Returns the new state, the
draw events and the number of line breaks taken. -/
def placeToken (cfg : FlowCfg) (seg : TextSegment) (st : FlowSt)
    (tok : String) : FlowSt × List FlowEv × Nat :=
  if tok = "" then (st, [], 0)
  else
    let tw := cfg.w seg tok
    if st.x + tw > cfg.maxW ∧ lineStartOf cfg st < st.x then
      let st1 := newLineF cfg st
      if jsTrim tok = "" then (st1, [], 1)
      else
        (⟨st1.x + tw, st1.y, st1.isFirstLine, st1.lh, st1.page⟩,
         [FlowEv.txt tok st1.x st1.y], 1)
    else
      (⟨st.x + tw, st.y, st.isFirstLine, st.lh, st.page⟩,
       [FlowEv.txt tok st.x st.y], 0)

def flowTokens (cfg : FlowCfg) (seg : TextSegment) :
    FlowSt → List String → FlowSt × List FlowEv × Nat
  | st, [] => (st, [], 0)
  | st, t :: ts =>
      let p := placeToken cfg seg st t
      let r := flowTokens cfg seg p.1 ts
      (r.1, p.2.1 ++ r.2.1, p.2.2 + r.2.2)

/-- `segment.text.split(/(\s+)/)`: alternating runs of non-whitespace and
whitespace, keeping the whitespace tokens (with the empty boundary tokens JS
produces), fuelled by the input length. -/
def splitWsF : Nat → List Char → List String
  | 0, l => [String.mk l]
  | f + 1, l =>
      let word := l.takeWhile fun c => !isWsChar c
      match l.dropWhile (fun c => !isWsChar c) with
      | [] => [String.mk word]
      | r =>
          String.mk word :: String.mk (r.takeWhile isWsChar) ::
            splitWsF f (r.dropWhile isWsChar)

def splitWsTokens (s : String) : List String := splitWsF s.data.length s.data

/-- One segment of the flow loop: the LaTeX branch (sizing, wrap check,
SVG placement with line-height bump, or the unwrapped placeholder on
resolution failure) or the tokenised text branch. -/
def flowSeg (cfg : FlowCfg) (st : FlowSt) (seg : TextSegment) :
    FlowSt × List FlowEv × Nat :=
  match seg.latex with
  | some isDisp =>
      (match cfg.latexSize seg.text isDisp with
       | some (tw, th) =>
           let p :=
             if st.x + tw > cfg.maxW ∧ lineStartOf cfg st < st.x then
               (newLineF cfg st, 1)
             else (st, 0)
           let st1 := p.1
           (⟨st1.x + tw, st1.y, st1.isFirstLine,
             if st1.lh < th then th else st1.lh, st1.page⟩,
            [FlowEv.svg seg.text st1.x (st1.y - th + cfg.fontSize) tw th], p.2)
       | none =>
           let fb := "[Math: " ++ seg.text ++ "]"
           (⟨st.x + cfg.wFallback fb, st.y, st.isFirstLine, st.lh, st.page⟩,
            [FlowEv.txt fb st.x st.y], 0))
  | none => flowTokens cfg seg st (splitWsTokens seg.text)

def flowSegs (cfg : FlowCfg) : FlowSt → List TextSegment →
    FlowSt × List FlowEv × Nat
  | st, [] => (st, [], 0)
  | st, s :: ss =>
      let p := flowSeg cfg st s
      let r := flowSegs cfg p.1 ss
      (r.1, p.2.1 ++ r.2.1, p.2.2 + r.2.2)

/-- `renderTextFlowWithIndent`: extract the segments, prepend the optional
list-marker run, start at the first-line offset and, after all segments,
advance the cursor one further line height. -/
def renderTextFlowWithIndent (cfg : FlowCfg) (nodes : NodeF) (pfx : String)
    (y0 : ℚ) : FlowSt × List FlowEv × Nat :=
  let segs0 := extractTextSegments nodes false false
  let segs := if pfx = "" then segs0 else ⟨pfx, false, false, false, none⟩ :: segs0
  let st0 : FlowSt := ⟨cfg.firstX, y0, true, cfg.lineHPt, 0⟩
  let r := flowSegs cfg st0 segs
  ({ r.1 with y := r.1.y + r.1.lh }, r.2.1, r.2.2)

/-- The flow configuration `renderTextFlowWithIndent` derives from
`getPageSetup` (`maxWidth = pageDimensions.width - margins.right`,
`lineHeightPt = fontSize * lineHeight`). -/
def flowCfgOf (ps : PageSetup) (firstX subX : ℚ)
    (w : TextSegment → String → ℚ) (latexSize : String → Bool → Option (ℚ × ℚ))
    (wFallback : String → ℚ) : FlowCfg :=
  ⟨ps.pageW - ps.mRight, firstX, subX, ps.fontSize * ps.lineHeight, ps.pageH,
   ps.mTop, ps.mBottom, ps.fontSize, w, latexSize, wFallback⟩

/-- How many tokens the flow loop sees in one segment (a LaTeX segment is
a single unit). -/
def segTokenCount (seg : TextSegment) : Nat :=
  match seg.latex with
  | some _ => 1
  | none => (splitWsTokens seg.text).length

def totalTokenCount (segs : List TextSegment) : Nat :=
  (segs.map segTokenCount).sum

/-! ### The document renderer's node loop (pdf-generator.ts /
part_003 `generatePdf`)

The orchestrator iterates the top-level nodes that pass `hasContent`; before
each node it breaks the page when the cursor has passed the usable height,
and for a heading tagged `isReferenceSection` it unconditionally adds a page
and resets the cursor to the top margin; then the node's formatter runs from
the resulting position.  The formatter's cursor advance is abstracted as
`adv`. -/

/-- `hasContent` helper: the concatenated values of the direct `text`
children. -/
def directTextConcat : NodeF → String
  | NodeF.nilN => ""
  | NodeF.text v sib => v ++ directTextConcat sib
  | NodeF.inlineCode _ sib => directTextConcat sib
  | NodeF.inlineMath _ sib => directTextConcat sib
  | NodeF.strong _ sib => directTextConcat sib
  | NodeF.emphasis _ sib => directTextConcat sib
  | NodeF.heading _ _ _ sib => directTextConcat sib
  | NodeF.paragraph _ sib => directTextConcat sib
  | NodeF.yaml _ sib => directTextConcat sib
  | NodeF.codeBlock _ sib => directTextConcat sib
  | NodeF.listNode _ _ sib => directTextConcat sib
  | NodeF.listItem _ sib => directTextConcat sib
  | NodeF.blockquote _ sib => directTextConcat sib
  | NodeF.container _ sib => directTextConcat sib
  | NodeF.leaf sib => directTextConcat sib

/-- `children.some(child => child.type !== "text")`. -/
def hasNonTextChild : NodeF → Bool
  | NodeF.nilN => false
  | NodeF.text _ sib => hasNonTextChild sib
  | _ => true

/-- `hasContent`: a paragraph counts only when its direct text content is
non-blank or it has a non-text child; every other node kind counts. -/
def hasContentB : NodeF → Bool
  | NodeF.paragraph ch _ =>
      (match ch with
       | NodeF.nilN => false
       | _ => !(jsTrim (directTextConcat ch) = "") || hasNonTextChild ch)
  | _ => true

/-- `node.data?.isReferenceSection` on a heading. -/
def isRefHeadingB : NodeF → Bool
  | NodeF.heading _ r _ _ => r
  | _ => false

structure OrchCfg where
  pageH : ℚ
  mTop : ℚ
  mBottom : ℚ
deriving DecidableEq, Repr

structure OrchSt where
  page : Nat
  y : ℚ
deriving DecidableEq, Repr

/-- The cursor adjustments before a node is handed to its formatter:
overflow break, then the unconditional reference-section break. -/
def orchPre (cfg : OrchCfg) (st : OrchSt) (n : NodeF) : OrchSt :=
  let st1 : OrchSt :=
    if st.y > cfg.pageH - cfg.mBottom then ⟨st.page + 1, cfg.mTop⟩ else st
  if isRefHeadingB n then ⟨st1.page + 1, cfg.mTop⟩ else st1

/-- One iteration of the node loop: the state at which the node's formatter
starts, and the state after the formatter advanced the cursor. -/
def orchStep (cfg : OrchCfg) (adv : NodeF → ℚ → ℚ) (st : OrchSt) (n : NodeF) :
    OrchSt × OrchSt :=
  let r := orchPre cfg st n
  (r, ⟨r.page, adv n r.y⟩)

def orchRunAux (cfg : OrchCfg) (adv : NodeF → ℚ → ℚ) :
    List NodeF → OrchSt → List (NodeF × OrchSt) × OrchSt
  | [], st => ([], st)
  | n :: ns, st =>
      let p := orchStep cfg adv st n
      let r := orchRunAux cfg adv ns p.2
      ((n, p.1) :: r.1, r.2)

/-- The node loop over the content-bearing top-level nodes, producing for
each rendered node the state its formatter started from. -/
def orchRun (cfg : OrchCfg) (adv : NodeF → ℚ → ℚ) (nodes : List NodeF)
    (st : OrchSt) : List (NodeF × OrchSt) × OrchSt :=
  orchRunAux cfg adv (nodes.filter hasContentB) st

/-! ### Format-style selection (`FormatterFactory.createFormatter` and the
factory-based `generatePdf` prelude, part_003)

`FormatStyle` is the string enum `{ APA = "APA", MLA = "MLA" }`; the factory
builds a formatter only for `FormatStyle.APA` and otherwise throws an error
naming the enum's values; `generatePdf` creates the formatter before
rendering anything and rethrows a failure, again naming the available
formats. -/

def formatStyleValues : List String := ["APA", "MLA"]

def createFormatter (style : String) : Except String Unit :=
  if style = "APA" then Except.ok ()
  else
    Except.error
      ("Unsupported format style: " ++ style ++ ". Available formats: " ++
        String.intercalate ", " formatStyleValues)

def generatePdfInit (style : String) : Except String Unit :=
  match createFormatter style with
  | Except.ok u => Except.ok u
  | Except.error _ =>
      Except.error
        ("Failed to create formatter for format style: " ++ style ++
          ". Available formats: " ++ String.intercalate ", " formatStyleValues)

/-- `generatePdf` with the rendering abstracted: formatter creation happens
first, and on failure the whole render throws with no node rendered. -/
def generatePdfModel (cfg : OrchCfg) (adv : NodeF → ℚ → ℚ) (style : String)
    (nodes : List NodeF) : Except String (List (NodeF × OrchSt)) :=
  match generatePdfInit style with
  | Except.error e => Except.error e
  | Except.ok _ => Except.ok (orchRun cfg adv nodes ⟨0, cfg.mTop⟩).1

/-! ### Normalized-form predicate for the idempotence claim

A stream is in normalized form when it is an interleaving
`c0, "", c1, "", c2, ...` of non-blank paragraph lines separated by single
blank lines, where no paragraph line opens a code fence and none still
contains a display-math span or an embed reference (nothing "pending
rewriting"); the front-matter exclusion is the condition on the first
line. -/

/-- No two adjacent characters spell `$$`. -/
def noDD : List Char → Bool
  | [] => true
  | [_] => true
  | c :: c2 :: rest => !(c = '$' && c2 = '$') && noDD (c2 :: rest)

/-- No three adjacent characters spell `![[`. -/
def noEmbed : List Char → Bool
  | c :: c2 :: c3 :: rest =>
      !(c = '!' && c2 = '[' && c3 = '[') && noEmbed (c2 :: c3 :: rest)
  | _ => true

/-- A paragraph line already in normalized form: non-blank, no code fence
opener, no display-math span, no embed reference. -/
def goodLine (c : String) : Bool :=
  !(jsTrim c = "") && !(startsWithFence (jsTrim c).data) &&
    noDD c.data && noEmbed c.data

/-- `c0, "", c1, "", c2, ...`: one paragraph per line, single blank
separators. -/
def interleaveBlanks : List String → List String
  | [] => []
  | c :: rest => c :: rest.flatMap fun x => ["", x]

/-! ### Specification-side title observations (first qualifying heading and
its removal), stated independently of `extractH1`. -/

/-- The leading text value of the first top-level depth-1 heading whose
first child is a text node. -/
def firstTextH1 : NodeF → Option String
  | NodeF.nilN => none
  | NodeF.heading 1 _ (NodeF.text v _) _ => some v
  | NodeF.heading _ _ _ sib => firstTextH1 sib
  | NodeF.text _ sib => firstTextH1 sib
  | NodeF.inlineCode _ sib => firstTextH1 sib
  | NodeF.inlineMath _ sib => firstTextH1 sib
  | NodeF.strong _ sib => firstTextH1 sib
  | NodeF.emphasis _ sib => firstTextH1 sib
  | NodeF.paragraph _ sib => firstTextH1 sib
  | NodeF.yaml _ sib => firstTextH1 sib
  | NodeF.codeBlock _ sib => firstTextH1 sib
  | NodeF.listNode _ _ sib => firstTextH1 sib
  | NodeF.listItem _ sib => firstTextH1 sib
  | NodeF.blockquote _ sib => firstTextH1 sib
  | NodeF.container _ sib => firstTextH1 sib
  | NodeF.leaf sib => firstTextH1 sib

/-- Removal of the first top-level depth-1 heading whose first child is a
text node (identity when there is none). -/
def removeFirstTextH1 : NodeF → NodeF
  | NodeF.nilN => NodeF.nilN
  | NodeF.heading 1 _ (NodeF.text _ _) sib => sib
  | NodeF.heading d r ch sib => NodeF.heading d r ch (removeFirstTextH1 sib)
  | NodeF.text v sib => NodeF.text v (removeFirstTextH1 sib)
  | NodeF.inlineCode v sib => NodeF.inlineCode v (removeFirstTextH1 sib)
  | NodeF.inlineMath v sib => NodeF.inlineMath v (removeFirstTextH1 sib)
  | NodeF.strong ch sib => NodeF.strong ch (removeFirstTextH1 sib)
  | NodeF.emphasis ch sib => NodeF.emphasis ch (removeFirstTextH1 sib)
  | NodeF.paragraph ch sib => NodeF.paragraph ch (removeFirstTextH1 sib)
  | NodeF.yaml v sib => NodeF.yaml v (removeFirstTextH1 sib)
  | NodeF.codeBlock v sib => NodeF.codeBlock v (removeFirstTextH1 sib)
  | NodeF.listNode o ch sib => NodeF.listNode o ch (removeFirstTextH1 sib)
  | NodeF.listItem ch sib => NodeF.listItem ch (removeFirstTextH1 sib)
  | NodeF.blockquote ch sib => NodeF.blockquote ch (removeFirstTextH1 sib)
  | NodeF.container ch sib => NodeF.container ch (removeFirstTextH1 sib)
  | NodeF.leaf sib => NodeF.leaf (removeFirstTextH1 sib)

/-! ### Concrete example inputs used by the claim instances -/

/-- A document whose only depth-1 heading has an `emphasis` (not `text`)
first child, followed by a paragraph. -/
def cexTreeEmphasisH1 : NodeF :=
  NodeF.heading 1 false (NodeF.emphasis (NodeF.text "Hi" NodeF.nilN) NodeF.nilN)
    (NodeF.paragraph (NodeF.text "p" NodeF.nilN) NodeF.nilN)

/-- A document with a single plain-text depth-1 heading. -/
def cexTreeTextH1 : NodeF :=
  NodeF.heading 1 false (NodeF.text "Doc" NodeF.nilN) NodeF.nilN

/-- A depth-1 heading whose text is split over a text node and an emphasis
node. -/
def cexTreeMixedH1 : NodeF :=
  NodeF.heading 1 false
    (NodeF.text "A" (NodeF.emphasis (NodeF.text "B" NodeF.nilN) NodeF.nilN))
    NodeF.nilN

/-- Front-matter `title: "X"` plus one paragraph (the round-trip document of
the spec). -/
def roundTripTree : NodeF :=
  NodeF.yaml "title: \"X\"" (NodeF.paragraph (NodeF.text "p" NodeF.nilN) NodeF.nilN)

/-- The two-paragraph document used for citation order and duplicates (the
second citation sits inside a `strong` node). -/
def citDocTree : NodeF :=
  NodeF.paragraph (NodeF.text "see [@smith2020] and [@lee99]" NodeF.nilN)
    (NodeF.paragraph
      (NodeF.strong (NodeF.text "again [@smith2020]" NodeF.nilN) NodeF.nilN)
      NodeF.nilN)

/-- A document whose only citation marker has an empty key. -/
def emptyKeyTree : NodeF :=
  NodeF.paragraph (NodeF.text "nothing here [@]" NodeF.nilN) NodeF.nilN

/-- The flow configuration of an APA render with the default one-inch
margins (the settings that give 72pt top/bottom margins, 24pt line height and
US-Letter 612×792pt pages). -/
def apaFlowCfg (firstX subX : ℚ) (w : TextSegment → String → ℚ)
    (ls : String → Bool → Option (ℚ × ℚ)) (wf : String → ℚ) : FlowCfg :=
  flowCfgOf (apaGetPageSetup ⟨1, 1, 1, 1⟩) firstX subX w ls wf

/-! ## Theorems -/

/-- The citation pass equals running the scanner over the text values in
visit order. -/
theorem citations_visit_eq (f : NodeF) :
    citationsOf f = (collectTexts f).flatMap scanCitations := by
  induction f <;> simp [citationsOf, collectTexts, *]

/-- One step of the citation automaton never adds an empty key. -/
theorem citStep_acc_sound (c : Char) (st : CitState) (acc : List String)
    (h : ∀ k ∈ acc, k ≠ "") : ∀ k ∈ (citStep (st, acc) c).2, k ≠ "" := by
  cases st with
  | outside => simpa [citStep] using h
  | sawBracket =>
      simp only [citStep]
      split_ifs <;> simpa using h
  | inKey rk =>
      simp only [citStep]
      by_cases hc1 : c = ']'
      · simp only [if_pos hc1]
        by_cases hrk : rk = []
        · simpa [hrk] using h
        · simp only [if_neg hrk]
          intro k hk
          rcases List.mem_append.mp hk with hk | hk
          · exact h k hk
          · rcases List.mem_singleton.mp hk with rfl
            intro hempty
            exact hrk (List.reverse_eq_nil_iff.mp
              (by simpa using congrArg String.data hempty))
      · simp only [if_neg hc1]
        split_ifs <;> simpa using h

/-- The whole fold never accumulates an empty key. -/
theorem foldl_citStep_sound (l : List Char) :
    ∀ p : CitState × List String, (∀ k ∈ p.2, k ≠ "") →
      ∀ k ∈ (l.foldl citStep p).2, k ≠ "" := by
  induction l with
  | nil => intro p hp; exact hp
  | cons c r ih =>
      intro p hp
      obtain ⟨st, acc⟩ := p
      exact ih (citStep (st, acc) c) (citStep_acc_sound c st acc hp)

/-- Every key the scanner produces is non-empty. -/
theorem scanCitations_nonempty (s : String) : ∀ k ∈ scanCitations s, k ≠ "" :=
  foldl_citStep_sound s.data (CitState.outside, []) (by simp)

/-- C2: citation extraction scans all text runs in document order and
appends each matched key, keeping duplicates; on
`"see [@smith2020] and [@lee99]"` it yields `["smith2020", "lee99"]` in that
order, and on a two-paragraph document with a repeated key (one occurrence
inside a `strong` run) it yields the keys in visit order with the duplicate
kept. -/
theorem claim2_citations_in_order :
    scanCitations "see [@smith2020] and [@lee99]" = ["smith2020", "lee99"] ∧
    (∀ tree : NodeF, citationsOf tree = (collectTexts tree).flatMap scanCitations) ∧
    citationsOf citDocTree = ["smith2020", "lee99", "smith2020"] :=
  ⟨by decide, citations_visit_eq, by decide⟩

/-- C10: an empty-key marker `[@]` contributes nothing — every extracted
citation key is a non-empty string, and the concrete document whose only
marker is `[@]` yields an empty citation list. -/
theorem claim10_no_empty_citation :
    (∀ (tree : NodeF) (k : String), k ∈ citationsOf tree → k ≠ "") ∧
    scanCitations "nothing here [@]" = [] ∧
    citationsOf emptyKeyTree = [] := by
  refine ⟨?_, by decide, by decide⟩
  intro tree k hk
  rw [citations_visit_eq] at hk
  rcases List.mem_flatMap.mp hk with ⟨s, _, hks⟩
  exact scanCitations_nonempty s k hks

/-- Witness for C10 at a concrete document and key. -/
theorem claim10_witness : "b" ≠ "" :=
  claim10_no_empty_citation.1
    (NodeF.paragraph (NodeF.text "a [@b]" NodeF.nilN) NodeF.nilN) "b" (by decide)

/-- C7: table-start detection is the conjunction of a `|` in the line and
the divider pattern on the following line; it is positive on
`"a|b"` / `"---|---"` and negative on `"a|b"` / `"c|d"`, and the divider
pattern accepts aligned/padded variants while rejecting a blank line and a
single dash cell without a separator. -/
theorem claim7_table_start_detection :
    isTableStart "a|b" "---|---" = true ∧
    isTableStart "a|b" "c|d" = false ∧
    dividerMatch "| :---: | --- |" = true ∧
    dividerMatch "-: | :-" = true ∧
    dividerMatch "" = false ∧
    dividerMatch "---" = false ∧
    (∀ line next, isTableStart line next = (containsChar line '|' && dividerMatch next)) :=
  ⟨by decide, by decide, by decide, by decide, by decide, by decide,
   fun _ _ => rfl⟩

/-- Inline-code segments always come out with both decoration flags off,
whatever the inherited flags are. -/
theorem extractTextSegments_code_plain :
    ∀ (f : NodeF) (b i : Bool) (s : TextSegment),
      s ∈ extractTextSegments f b i → s.code = true →
        s.bold = false ∧ s.italic = false := by
  intro f
  induction f with
  | nilN => intro b i s hs _; simp [extractTextSegments] at hs
  | text v sib ih =>
      intro b i s hs hc
      rcases List.mem_cons.mp hs with rfl | hs
      · simp at hc
      · exact ih b i s hs hc
  | inlineCode v sib ih =>
      intro b i s hs hc
      rcases List.mem_cons.mp hs with rfl | hs
      · exact ⟨rfl, rfl⟩
      · exact ih b i s hs hc
  | inlineMath v sib ih =>
      intro b i s hs hc
      rcases List.mem_cons.mp hs with rfl | hs
      · simp at hc
      · exact ih b i s hs hc
  | strong ch sib ihc ihs =>
      intro b i s hs hc
      rcases List.mem_append.mp hs with hs | hs
      · exact ihc true i s hs hc
      · exact ihs b i s hs hc
  | emphasis ch sib ihc ihs =>
      intro b i s hs hc
      rcases List.mem_append.mp hs with hs | hs
      · exact ihc b true s hs hc
      · exact ihs b i s hs hc
  | heading d r ch sib ihc ihs =>
      intro b i s hs hc
      rcases List.mem_append.mp hs with hs | hs
      · exact ihc b i s hs hc
      · exact ihs b i s hs hc
  | paragraph ch sib ihc ihs =>
      intro b i s hs hc
      rcases List.mem_append.mp hs with hs | hs
      · exact ihc b i s hs hc
      · exact ihs b i s hs hc
  | listNode o ch sib ihc ihs =>
      intro b i s hs hc
      rcases List.mem_append.mp hs with hs | hs
      · exact ihc b i s hs hc
      · exact ihs b i s hs hc
  | listItem ch sib ihc ihs =>
      intro b i s hs hc
      rcases List.mem_append.mp hs with hs | hs
      · exact ihc b i s hs hc
      · exact ihs b i s hs hc
  | blockquote ch sib ihc ihs =>
      intro b i s hs hc
      rcases List.mem_append.mp hs with hs | hs
      · exact ihc b i s hs hc
      · exact ihs b i s hs hc
  | container ch sib ihc ihs =>
      intro b i s hs hc
      rcases List.mem_append.mp hs with hs | hs
      · exact ihc b i s hs hc
      · exact ihs b i s hs hc
  | yaml v sib ih => intro b i s hs hc; exact ih b i s hs hc
  | codeBlock v sib ih => intro b i s hs hc; exact ih b i s hs hc
  | leaf sib ih => intro b i s hs hc; exact ih b i s hs hc

/-- C9: inline-code segments are emitted with `bold = false` and
`italic = false` even under `strong`/`emphasis` ancestors, while text
segments inherit the ancestors' flags (the `strong`/`emphasis`/`text`
equations, and a nested concrete instance). -/
theorem claim9_inline_code_unstyled :
    (∀ (f : NodeF) (b i : Bool) (s : TextSegment),
       s ∈ extractTextSegments f b i → s.code = true →
         s.bold = false ∧ s.italic = false) ∧
    (∀ (ns : NodeF) (b i : Bool),
       extractTextSegments (NodeF.strong ns NodeF.nilN) b i =
         extractTextSegments ns true i) ∧
    (∀ (ns : NodeF) (b i : Bool),
       extractTextSegments (NodeF.emphasis ns NodeF.nilN) b i =
         extractTextSegments ns b true) ∧
    (∀ (v : String) (b i : Bool),
       extractTextSegments (NodeF.text v NodeF.nilN) b i =
         [⟨v, b, i, false, none⟩]) ∧
    extractTextSegments
        (NodeF.strong
          (NodeF.emphasis (NodeF.text "w" (NodeF.inlineCode "c" NodeF.nilN))
            NodeF.nilN)
          NodeF.nilN) false false =
      [⟨"w", true, true, false, none⟩, ⟨"c", false, false, true, none⟩] := by
  refine ⟨extractTextSegments_code_plain, ?_, ?_, ?_, by decide⟩
  · intro ns b i; simp [extractTextSegments]
  · intro ns b i; simp [extractTextSegments]
  · intro v b i; simp [extractTextSegments]

/-- Witness for C9: the invariant applied to an inline-code node nested in
a `strong` node. -/
theorem claim9_witness :
    (⟨"c", false, false, true, none⟩ : TextSegment).bold = false ∧
      (⟨"c", false, false, true, none⟩ : TextSegment).italic = false :=
  claim9_inline_code_unstyled.1
    (NodeF.strong (NodeF.inlineCode "c" NodeF.nilN) NodeF.nilN) false false
    ⟨"c", false, false, true, none⟩ (by decide) (by decide)

/-- The `newLine` closure breaks the page exactly when the next line's
bottom would pass the usable height, resetting the cursor to the top margin,
and otherwise just advances the cursor; either way `x` resets to the
subsequent-line offset. -/
theorem newLineF_spec (cfg : FlowCfg) (st : FlowSt) :
    ((newLineF cfg st).page = st.page + 1 ↔
        st.y + st.lh + cfg.lineHPt > cfg.pageH - cfg.mBottom) ∧
    (st.y + st.lh + cfg.lineHPt > cfg.pageH - cfg.mBottom →
        (newLineF cfg st).y = cfg.mTop) ∧
    (¬ st.y + st.lh + cfg.lineHPt > cfg.pageH - cfg.mBottom →
        (newLineF cfg st).y = st.y + st.lh ∧ (newLineF cfg st).page = st.page) ∧
    (newLineF cfg st).x = cfg.subX := by
  simp only [newLineF]
  by_cases h : st.y + st.lh + cfg.lineHPt > cfg.pageH - cfg.mBottom
  · rw [if_pos h]
    exact ⟨iff_of_true rfl h, fun _ => rfl, fun hc => absurd h hc, rfl⟩
  · rw [if_neg h]
    dsimp only
    exact ⟨⟨fun hp => absurd hp (by omega), fun hc => absurd hc h⟩,
      fun hc => absurd hc h, fun _ => ⟨rfl, rfl⟩, rfl⟩

/-- C4: in the text-flow line-break step under the APA page setup
(US-Letter 792pt height, one-inch margins, 12pt double-spaced lines), a page
break is taken exactly when the next line's bottom `y + lh + 24` would
exceed the usable height `792 - 72`, and it resets the cursor to the 72pt
top margin; otherwise the cursor only advances by the current line
height. -/
theorem claim4_page_break_condition (firstX subX : ℚ)
    (w : TextSegment → String → ℚ) (ls : String → Bool → Option (ℚ × ℚ))
    (wf : String → ℚ) (st : FlowSt) :
    (apaFlowCfg firstX subX w ls wf).lineHPt = 24 ∧
    ((newLineF (apaFlowCfg firstX subX w ls wf) st).page = st.page + 1 ↔
      st.y + st.lh + 24 > 792 - 72) ∧
    (st.y + st.lh + 24 > 792 - 72 →
      (newLineF (apaFlowCfg firstX subX w ls wf) st).y = 72) ∧
    (¬ st.y + st.lh + 24 > 792 - 72 →
      (newLineF (apaFlowCfg firstX subX w ls wf) st).y = st.y + st.lh ∧
      (newLineF (apaFlowCfg firstX subX w ls wf) st).page = st.page) := by
  have e1 : (apaFlowCfg firstX subX w ls wf).lineHPt = 24 := by
    norm_num [apaFlowCfg, flowCfgOf, apaGetPageSetup]
  have e2 : (apaFlowCfg firstX subX w ls wf).pageH -
      (apaFlowCfg firstX subX w ls wf).mBottom = 792 - 72 := by
    norm_num [apaFlowCfg, flowCfgOf, apaGetPageSetup]
  have e3 : (apaFlowCfg firstX subX w ls wf).mTop = 72 := by
    norm_num [apaFlowCfg, flowCfgOf, apaGetPageSetup]
  obtain ⟨s1, s2, s3, _⟩ := newLineF_spec (apaFlowCfg firstX subX w ls wf) st
  rw [e1, e2] at s1 s2 s3
  rw [e3] at s2
  exact ⟨e1, s1, s2, s3⟩

/-- Witness for C4: a flow whose next line would start at `y = 745` (cursor
721 plus current line height 24) breaks the page — `745 + 24 > 792 - 72` —
and restarts at the top margin. -/
theorem claim4_witness :
    (newLineF (apaFlowCfg 108 72 (fun _ _ => 0) (fun _ _ => none) (fun _ => 0))
        ⟨72, 721, false, 24, 0⟩).page = 1 ∧
    (newLineF (apaFlowCfg 108 72 (fun _ _ => 0) (fun _ _ => none) (fun _ => 0))
        ⟨72, 721, false, 24, 0⟩).y = 72 := by
  have h := claim4_page_break_condition 108 72 (fun _ _ => 0) (fun _ _ => none)
    (fun _ => 0) ⟨72, 721, false, 24, 0⟩
  exact ⟨h.2.1.mpr (by norm_num), h.2.2.1 (by norm_num)⟩

/-- Before a reference-section heading the orchestrator always lands on a
fresh page at the top margin. -/
theorem orchPre_ref (cfg : OrchCfg) (st : OrchSt) (n : NodeF)
    (h : isRefHeadingB n = true) :
    (orchPre cfg st n).y = cfg.mTop ∧ st.page < (orchPre cfg st n).page := by
  by_cases hc : st.y > cfg.pageH - cfg.mBottom
  · simp [orchPre, h, hc]
    omega
  · simp [orchPre, h, hc]

/-- Every reference-section heading in the render trace starts at the top
margin. -/
theorem orchRunAux_ref (cfg : OrchCfg) (adv : NodeF → ℚ → ℚ) :
    ∀ (l : List NodeF) (st : OrchSt) (p : NodeF × OrchSt),
      p ∈ (orchRunAux cfg adv l st).1 → isRefHeadingB p.1 = true →
        p.2.y = cfg.mTop := by
  intro l
  induction l with
  | nil => intro st p hp _; simp [orchRunAux] at hp
  | cons n ns ih =>
      intro st p hp href
      simp only [orchRunAux, List.mem_cons] at hp
      rcases hp with rfl | hp
      · exact (orchPre_ref cfg st n href).1
      · exact ih _ p hp href

/-- C3: before rendering any heading tagged `isReferenceSection` the node
loop forces a page break — whatever the remaining space, the heading's
formatter starts on a new page (page counter strictly increased) at the top
margin — and every tagged heading in a whole render trace starts at the top
margin. -/
theorem claim3_reference_section_break :
    (∀ (cfg : OrchCfg) (adv : NodeF → ℚ → ℚ) (st : OrchSt) (n : NodeF),
       isRefHeadingB n = true →
         (orchStep cfg adv st n).1.y = cfg.mTop ∧
         st.page < (orchStep cfg adv st n).1.page) ∧
    (∀ (cfg : OrchCfg) (adv : NodeF → ℚ → ℚ) (nodes : List NodeF)
       (st : OrchSt) (p : NodeF × OrchSt),
       p ∈ (orchRun cfg adv nodes st).1 → isRefHeadingB p.1 = true →
         p.2.y = cfg.mTop) := by
  constructor
  · intro cfg adv st n h
    exact orchPre_ref cfg st n h
  · intro cfg adv nodes st p hp href
    exact orchRunAux_ref cfg adv _ st p hp href

/-- Witness for C3: a tagged heading reached with ample space left
(`y = 100` on page 0) still starts on a fresh page at `y = 72`. -/
theorem claim3_witness :
    (orchStep ⟨792, 72, 72⟩ (fun _ y => y) ⟨0, 100⟩
        (NodeF.heading 2 true NodeF.nilN NodeF.nilN)).1.y = 72 ∧
    0 < (orchStep ⟨792, 72, 72⟩ (fun _ y => y) ⟨0, 100⟩
        (NodeF.heading 2 true NodeF.nilN NodeF.nilN)).1.page :=
  claim3_reference_section_break.1 ⟨792, 72, 72⟩ (fun _ y => y) ⟨0, 100⟩
    (NodeF.heading 2 true NodeF.nilN NodeF.nilN) (by decide)

/-- C8: an unsupported format style makes the whole render throw before any
node is rendered, and both the factory error and the rethrown error name the
set of valid format styles (`APA, MLA`, the values of the `FormatStyle`
enum). -/
theorem claim8_unknown_style_fatal (style : String) (h : style ≠ "APA")
    (cfg : OrchCfg) (adv : NodeF → ℚ → ℚ) (nodes : List NodeF) :
    generatePdfModel cfg adv style nodes =
      Except.error ("Failed to create formatter for format style: " ++ style ++
        ". Available formats: APA, MLA") ∧
    (∀ evs, generatePdfModel cfg adv style nodes ≠ Except.ok evs) ∧
    createFormatter style =
      Except.error ("Unsupported format style: " ++ style ++
        ". Available formats: APA, MLA") ∧
    "APA".data <:+: ("Failed to create formatter for format style: " ++ style ++
        ". Available formats: APA, MLA").data ∧
    "MLA".data <:+: ("Failed to create formatter for format style: " ++ style ++
        ". Available formats: APA, MLA").data := by
  have hint : String.intercalate ", " formatStyleValues = "APA, MLA" := by decide
  have hmerge : (". Available formats: " ++ "APA, MLA" : String) =
      ". Available formats: APA, MLA" := by decide
  have hcf : createFormatter style =
      Except.error ("Unsupported format style: " ++ style ++
        ". Available formats: APA, MLA") := by
    simp only [createFormatter, if_neg h, hint, String.append_assoc, hmerge]
  have hmodel : generatePdfModel cfg adv style nodes =
      Except.error ("Failed to create formatter for format style: " ++ style ++
        ". Available formats: APA, MLA") := by
    simp only [generatePdfModel, generatePdfInit, hcf, hint,
      String.append_assoc, hmerge]
  have hsub : ∀ t : String, t.data <:+: ". Available formats: APA, MLA".data →
      t.data <:+: ("Failed to create formatter for format style: " ++ style ++
        ". Available formats: APA, MLA").data := by
    intro t ht
    rw [String.data_append, String.data_append]
    exact ht.trans (List.suffix_append _ _).isInfix
  refine ⟨hmodel, ?_, hcf, hsub "APA" (by decide), hsub "MLA" (by decide)⟩
  intro evs hcontra
  rw [hmodel] at hcontra
  exact Except.noConfusion hcontra

/-- Witness for C8: the style `"Chicago"` fails with the full message. -/
theorem claim8_witness :
    generatePdfModel ⟨792, 72, 72⟩ (fun _ y => y) "Chicago" [] =
      Except.error
        "Failed to create formatter for format style: Chicago. Available formats: APA, MLA" := by
  have h := claim8_unknown_style_fatal "Chicago" (by decide) ⟨792, 72, 72⟩
    (fun _ y => y) []
  exact h.1.trans (congrArg Except.error (by decide))

/-- One token triggers at most one line break. -/
theorem placeToken_breaks_le (cfg : FlowCfg) (seg : TextSegment) (st : FlowSt)
    (tok : String) : (placeToken cfg seg st tok).2.2 ≤ 1 := by
  simp only [placeToken]
  split_ifs <;> simp

/-- A token with the cursor at (or before) the line-start offset never
triggers a break: the wrap condition requires the cursor to be strictly past
the line start. -/
theorem placeToken_no_break_at_linestart (cfg : FlowCfg) (seg : TextSegment)
    (st : FlowSt) (tok : String) (h : st.x ≤ lineStartOf cfg st) :
    (placeToken cfg seg st tok).2.2 = 0 := by
  simp only [placeToken]
  split_ifs with h1 h2 h3
  · rfl
  · exact absurd (lt_of_lt_of_le h2.2 h) (lt_irrefl _)
  · exact absurd (lt_of_lt_of_le h2.2 h) (lt_irrefl _)
  · rfl

/-- A non-empty token sitting exactly at the line start is drawn there —
whatever its width — with no break attempt. -/
theorem placeToken_at_linestart_placed (cfg : FlowCfg) (seg : TextSegment)
    (st : FlowSt) (tok : String) (h0 : tok ≠ "")
    (h : st.x = lineStartOf cfg st) :
    (placeToken cfg seg st tok).2.1 = [FlowEv.txt tok st.x st.y] ∧
    (placeToken cfg seg st tok).2.2 = 0 := by
  have hnot : ¬ (st.x + cfg.w seg tok > cfg.maxW ∧ lineStartOf cfg st < st.x) :=
    fun hcon => absurd hcon.2 (by rw [h]; exact lt_irrefl _)
  simp only [placeToken, if_neg h0, if_neg hnot]
  simp

/-- A visible token that did take its one break is then drawn at the fresh
line's start (the cursor `newLineF` produced) — it is never re-wrapped. -/
theorem placeToken_after_break_drawn (cfg : FlowCfg) (seg : TextSegment)
    (st : FlowSt) (tok : String) (h0 : tok ≠ "") (h1 : jsTrim tok ≠ "")
    (hb : (placeToken cfg seg st tok).2.2 = 1) :
    (placeToken cfg seg st tok).2.1 =
      [FlowEv.txt tok (newLineF cfg st).x (newLineF cfg st).y] := by
  simp only [placeToken, if_neg h0] at hb ⊢
  by_cases h2 : st.x + cfg.w seg tok > cfg.maxW ∧ lineStartOf cfg st < st.x
  · rw [if_pos h2]
    rw [if_neg h1]
  · rw [if_neg h2] at hb
    exact absurd hb (by simp)

/-- The wrap loop takes at most one break per token of the list. -/
theorem flowTokens_breaks_le (cfg : FlowCfg) (seg : TextSegment) :
    ∀ (ts : List String) (st : FlowSt),
      (flowTokens cfg seg st ts).2.2 ≤ ts.length := by
  intro ts
  induction ts with
  | nil => intro st; simp [flowTokens]
  | cons t ts ih =>
      intro st
      simp only [flowTokens, List.length_cons]
      have h1 := placeToken_breaks_le cfg seg st t
      have h2 := ih (placeToken cfg seg st t).1
      omega

/-- One segment's breaks are bounded by its token count (a LaTeX segment
counts as one unit). -/
theorem flowSeg_breaks_le (cfg : FlowCfg) (st : FlowSt) (seg : TextSegment) :
    (flowSeg cfg st seg).2.2 ≤ segTokenCount seg := by
  simp only [flowSeg, segTokenCount]
  cases hl : seg.latex with
  | none => exact flowTokens_breaks_le cfg seg _ _
  | some d =>
      cases hs : cfg.latexSize seg.text d with
      | none => simp [hs]
      | some p =>
          obtain ⟨tw, th⟩ := p
          simp only [hs]
          split_ifs <;> simp

/-- The whole flow of a finite segment list takes at most one break per
token: the loop cannot wrap forever. -/
theorem flowSegs_breaks_le (cfg : FlowCfg) :
    ∀ (segs : List TextSegment) (st : FlowSt),
      (flowSegs cfg st segs).2.2 ≤ totalTokenCount segs := by
  intro segs
  induction segs with
  | nil => intro st; simp [flowSegs, totalTokenCount]
  | cons s ss ih =>
      intro st
      simp only [flowSegs, totalTokenCount, List.map_cons, List.sum_cons]
      have h1 := flowSeg_breaks_le cfg st s
      have h2 := ih (flowSeg cfg st s).1
      simp only [totalTokenCount] at h2
      omega

/-- C5: in the greedy wrap loop a token wider than the available width is
placed at the line-start position (the wrap condition needs the cursor
strictly past the line start, so at the line start no break fires and at
most one break fires anywhere, after which the token is drawn at the fresh
line start rather than re-wrapped); consequently the loop over any finite
segment list takes at most one break per token and terminates. -/
theorem claim5_oversized_token_no_loop :
    (∀ (cfg : FlowCfg) (seg : TextSegment) (st : FlowSt) (tok : String),
       (placeToken cfg seg st tok).2.2 ≤ 1) ∧
    (∀ (cfg : FlowCfg) (seg : TextSegment) (st : FlowSt) (tok : String),
       st.x ≤ lineStartOf cfg st → (placeToken cfg seg st tok).2.2 = 0) ∧
    (∀ (cfg : FlowCfg) (seg : TextSegment) (st : FlowSt) (tok : String),
       tok ≠ "" → st.x = lineStartOf cfg st →
         (placeToken cfg seg st tok).2.1 = [FlowEv.txt tok st.x st.y] ∧
         (placeToken cfg seg st tok).2.2 = 0) ∧
    (∀ (cfg : FlowCfg) (seg : TextSegment) (st : FlowSt) (tok : String),
       tok ≠ "" → jsTrim tok ≠ "" → (placeToken cfg seg st tok).2.2 = 1 →
         (placeToken cfg seg st tok).2.1 =
           [FlowEv.txt tok (newLineF cfg st).x (newLineF cfg st).y]) ∧
    (∀ (cfg : FlowCfg) (segs : List TextSegment) (st : FlowSt),
       (flowSegs cfg st segs).2.2 ≤ totalTokenCount segs) :=
  ⟨placeToken_breaks_le, placeToken_no_break_at_linestart,
   placeToken_at_linestart_placed, placeToken_after_break_drawn,
   fun cfg segs st => flowSegs_breaks_le cfg segs st⟩

/-- Witness for C5: a 1000pt-wide token at the first-line offset of a 540pt
line is drawn right there with no break. -/
theorem claim5_witness :
    (placeToken
        ⟨540, 108, 72, 24, 792, 72, 72, 12, fun _ _ => 1000, fun _ _ => none,
          fun _ => 0⟩
        ⟨"seg", false, false, false, none⟩ ⟨108, 100, true, 24, 0⟩
        "wide").2.1 = [FlowEv.txt "wide" 108 100] ∧
    (placeToken
        ⟨540, 108, 72, 24, 792, 72, 72, 12, fun _ _ => 1000, fun _ _ => none,
          fun _ => 0⟩
        ⟨"seg", false, false, false, none⟩ ⟨108, 100, true, 24, 0⟩
        "wide").2.2 = 0 := by
  have h := claim5_oversized_token_no_loop.2.2.1
    ⟨540, 108, 72, 24, 792, 72, 72, 12, fun _ _ => 1000, fun _ _ => none,
      fun _ => 0⟩
    ⟨"seg", false, false, false, none⟩ ⟨108, 100, true, 24, 0⟩ "wide"
    (by decide) (by norm_num [lineStartOf])
  exact h

/-- With no `![[` window anywhere, the embed replace leaves the characters
untouched. -/
theorem embedRewriteF_id :
    ∀ (f : Nat) (l : List Char), noEmbed l = true → l.length ≤ f →
      embedRewriteF f l = l := by
  intro f
  induction f with
  | zero =>
      intro l _ hlen
      rcases List.length_eq_zero.mp (Nat.le_zero.mp hlen) with rfl
      rfl
  | succ f ih =>
      intro l h hlen
      match l with
      | [] => rfl
      | [c] => rfl
      | [c, c2] => rfl
      | c :: c2 :: c3 :: rest =>
          simp only [noEmbed, Bool.and_eq_true, Bool.not_eq_true',
            Bool.and_eq_false_iff] at h
          have hcond : ¬ (c = '!' ∧ c2 = '[' ∧ c3 = '[') := by
            intro hc
            rcases h.1 with h1 | h1
            · rcases h1 with h1 | h1
              · exact absurd hc.1 (by simpa using h1)
              · exact absurd hc.2.1 (by simpa using h1)
            · exact absurd hc.2.2 (by simpa using h1)
          simp only [embedRewriteF, if_neg hcond]
          rw [ih (c2 :: c3 :: rest) h.2 (by simpa using Nat.le_of_succ_le_succ hlen)]

/-- `normalizeLine` is the identity on a line with no embed reference. -/
theorem embedRewrite_id (s : String) (h : noEmbed s.data = true) :
    embedRewrite s = s := by
  unfold embedRewrite
  rw [embedRewriteF_id s.data.length s.data h (le_refl _)]

/-- With no `$$` window anywhere there is no display-math span. -/
theorem findDD_none : ∀ l : List Char, noDD l = true → findDD l = none := by
  intro l
  induction l with
  | nil => intro _; rfl
  | cons c r ih =>
      cases r with
      | nil => intro _; rfl
      | cons c2 r2 =>
          intro h
          simp only [noDD, Bool.and_eq_true, Bool.not_eq_true',
            Bool.and_eq_false_iff] at h
          have hcond : ¬ (c = '$' ∧ c2 = '$') := by
            intro hc
            rcases h.1 with h1 | h1
            · exact absurd hc.1 (by simpa using h1)
            · exact absurd hc.2 (by simpa using h1)
          simp only [findDD, if_neg hcond]
          rw [ih h.2]
          rfl

/-- A line with no `$$` is returned unchanged by the display-math
expansion. -/
theorem expandLine_id (s : String) (h : noDD s.data = true) :
    expandLine s = [s] := by
  unfold expandLine expandDisplayMathInLine splitDD
  rw [findDD_none s.data h]
  rfl

/-- A blank line is dropped by the normal-mode handler. -/
theorem handleNormalLine_blank (next : String) (acc : List String)
    (tbs : List (List String)) :
    handleNormalLine "" next acc tbs = (PPMode.normal, acc, tbs) := rfl

/-- A normalized paragraph line followed by a non-divider line is emitted as
its own paragraph with a blank separator. -/
theorem handleNormalLine_good (line next : String) (acc : List String)
    (tbs : List (List String)) (hg : goodLine line = true)
    (hd : dividerMatch next = false) :
    handleNormalLine line next acc tbs =
      (PPMode.normal, pushContent acc line, tbs) := by
  simp only [goodLine, Bool.and_eq_true, Bool.not_eq_true'] at hg
  obtain ⟨⟨⟨ht, hf⟩, hdd⟩, hem⟩ := hg
  have h1 : ¬ (startsWithFence (jsTrim line).data = true) := by simp [hf]
  have h2 : ¬ (jsTrim line = "") := by simpa using ht
  have h3 : ¬ (isTableStart line next = true) := by simp [isTableStart, hd]
  simp only [handleNormalLine, if_neg h1, if_neg h2, if_neg h3]
  rw [embedRewrite_id line hem, expandLine_id line hdd]
  simp only [pushExpanded, if_neg h2]

/-- The head of the blank-interleaved tail is blank (or the stream ended). -/
theorem itail_headD (cs : List String) :
    ((cs.flatMap fun x => ["", x]).headD "") = "" := by
  cases cs <;> simp

/-- Running the main loop in normal mode over an already-normalized tail
`"", c1, "", c2, ...` only replays it. -/
theorem ppLoop_itail :
    ∀ (cs acc : List String) (tbs : List (List String)),
      (∀ c ∈ cs, goodLine c = true) → lastNonblank acc = true →
      ppLoop (cs.flatMap fun x => ["", x]) PPMode.normal acc tbs =
        (((cs.flatMap fun x => ["", x]).reverse ++ acc).reverse, tbs) := by
  intro cs
  induction cs with
  | nil => intro acc tbs _ _; simp [ppLoop]
  | cons c cs ih =>
      intro acc tbs hgood hacc
      have hg : goodLine c = true := hgood c (by simp)
      have hnb : ¬ (jsTrim c = "") := by
        simp only [goodLine, Bool.and_eq_true, Bool.not_eq_true'] at hg
        simpa using hg.1.1.1
      simp only [List.flatMap_cons, List.cons_append, List.nil_append]
      show ppLoop ("" :: c :: _) PPMode.normal acc tbs = _
      rw [ppLoop, handleNormalLine_blank]
      rw [ppLoop, handleNormalLine_good c _ acc tbs hg (by rw [itail_headD]; rfl)]
      have hpc : pushContent acc c = c :: "" :: acc := by
        simp [pushContent, hacc]
      rw [hpc]
      rw [ih (c :: "" :: acc) tbs (fun x hx => hgood x (by simp [hx]))
        (by simp [lastNonblank, hnb])]
      simp

/-- C6: the normalizer is idempotent on normalized streams — for a stream of
non-blank paragraph lines separated by single blank lines, with no
front-matter opener on the first line and no code fence, table, display-math
span or embed reference pending, re-running the pass reproduces the stream
exactly (and captures no table block). -/
theorem claim6_normalizer_idempotent (cs : List String)
    (hgood : ∀ c ∈ cs, goodLine c = true)
    (hfm : ∀ c0 ∈ cs.take 1, jsTrim c0 ≠ "---") :
    preprocessLines (interleaveBlanks cs) = (interleaveBlanks cs, []) := by
  cases cs with
  | nil => rfl
  | cons c0 cs =>
      have hg : goodLine c0 = true := hgood c0 (by simp)
      have h0 : ¬ (jsTrim c0 = "---") := hfm c0 (by simp)
      simp only [interleaveBlanks, preprocessLines, if_neg h0]
      rw [ppLoop, handleNormalLine_good c0 _ [] [] hg (by rw [itail_headD]; rfl)]
      have hpc : pushContent [] c0 = [c0] := by simp [pushContent, lastNonblank]
      rw [hpc]
      have hnb : ¬ (jsTrim c0 = "") := by
        simp only [goodLine, Bool.and_eq_true, Bool.not_eq_true'] at hg
        simpa using hg.1.1.1
      rw [ppLoop_itail cs [c0] [] (fun x hx => hgood x (by simp [hx]))
        (by simp [lastNonblank, hnb])]
      simp

/-- Witness for C6: the normalized two-paragraph stream
`["hello", "", "world"]` is reproduced verbatim. -/
theorem claim6_witness :
    preprocessLines ["hello", "", "world"] = (["hello", "", "world"], []) := by
  have h := claim6_normalizer_idempotent ["hello", "world"]
    (by decide) (by decide)
  simpa [interleaveBlanks] using h

/-- The title splice succeeds exactly when a qualifying heading exists. -/
theorem extractH1_none_iff : ∀ t : NodeF,
    extractH1 t = none ↔ hasTextH1 t = false := by
  intro t
  induction t
  case heading d r ch sib ihc ihs =>
    rcases d with _ | _ | d
    · simp [extractH1, hasTextH1, Option.map_eq_none, ihs]
    · cases ch <;> simp [extractH1, hasTextH1, Option.map_eq_none, ihs]
    · simp [extractH1, hasTextH1, Option.map_eq_none, ihs]
  all_goals simp [extractH1, hasTextH1, Option.map_eq_none, *]

/-- The spliced-out title is the first qualifying heading's leading text
value. -/
theorem extractH1_fst : ∀ t : NodeF,
    (extractH1 t).map Prod.fst = firstTextH1 t := by
  intro t
  induction t
  case heading d r ch sib ihc ihs =>
    rcases d with _ | _ | d
    · simp only [extractH1, firstTextH1]
      rw [← ihs]
      cases extractH1 sib <;> simp
    · cases ch <;>
        first
        | (simp [extractH1, firstTextH1]; done)
        | (simp only [extractH1, firstTextH1]
           rw [← ihs]
           cases extractH1 sib <;> simp)
    · simp only [extractH1, firstTextH1]
      rw [← ihs]
      cases extractH1 sib <;> simp
  case nilN => simp [extractH1, firstTextH1]
  all_goals
    rename_i ih
    simp only [extractH1, firstTextH1]
    rw [← ih]
    cases extractH1 _ <;> simp

/-- The splice removes exactly one qualifying heading: the count drops by
one (so the title cannot remain duplicated in the body). -/
theorem extractH1_count : ∀ (t : NodeF) (v : String) (tr : NodeF),
    extractH1 t = some (v, tr) → countTextH1 tr + 1 = countTextH1 t := by
  intro t
  induction t
  case nilN => intro v tr h; simp [extractH1] at h
  case heading d r ch sib ihc ihs =>
    rcases d with _ | _ | d
    · intro v tr h
      simp only [extractH1, Option.map_eq_some'] at h
      obtain ⟨p, hp, heq⟩ := h
      rw [Prod.mk.injEq] at heq
      obtain ⟨h1, h2⟩ := heq
      subst h2
      simp only [countTextH1]
      exact ihs p.1 p.2 hp
    · cases ch
      case text w c =>
        intro v tr h
        simp only [extractH1, Option.some.injEq, Prod.mk.injEq] at h
        obtain ⟨rfl, rfl⟩ := h
        simp [countTextH1]
      all_goals
        intro v tr h
        simp only [extractH1, Option.map_eq_some'] at h
        obtain ⟨p, hp, heq⟩ := h
        rw [Prod.mk.injEq] at heq
        obtain ⟨h1, h2⟩ := heq
        subst h2
        simp only [countTextH1]
        exact ihs p.1 p.2 hp
    · intro v tr h
      simp only [extractH1, Option.map_eq_some'] at h
      obtain ⟨p, hp, heq⟩ := h
      rw [Prod.mk.injEq] at heq
      obtain ⟨h1, h2⟩ := heq
      subst h2
      simp only [countTextH1]
      exact ihs p.1 p.2 hp
  all_goals
    rename_i ih
    intro v tr h
    simp only [extractH1, Option.map_eq_some'] at h
    obtain ⟨p, hp, heq⟩ := h
    rw [Prod.mk.injEq] at heq
    obtain ⟨h1, h2⟩ := heq
    subst h2
    simp only [countTextH1]
    exact ih p.1 p.2 hp

/-- Counterexample to C1 as stated, at three explicit inputs.
(i) With no front-matter title, `cexTreeEmphasisH1` has a first level-1
heading (text "Hi"), yet the title is the fallback `"Untitled"` and the
heading is **not** removed — the code demands the heading's first child be a
plain text node.  (ii) With front-matter declaring `title: ""`, the declared
value is **not** used and the body **is** altered — the code tests JS
truthiness, not presence.  (iii) On a heading `# A *B*` the title is `"A"`,
not its text `"AB"` — the code takes only the leading text node's value. -/
theorem claim1_counterexample :
    (hasH1 cexTreeEmphasisH1 = true ∧
      parseTitleCore none cexTreeEmphasisH1 = ("Untitled", cexTreeEmphasisH1)) ∧
    parseTitleCore (some "") cexTreeTextH1 = ("Doc", NodeF.nilN) ∧
    (parseTitleCore none cexTreeMixedH1 = ("A", NodeF.nilN) ∧
      flattenText
        (NodeF.text "A" (NodeF.emphasis (NodeF.text "B" NodeF.nilN) NodeF.nilN)) =
        "AB" ∧ ("A" : String) ≠ "AB") := by
  refine ⟨⟨by decide, by decide⟩, by decide, by decide, ?_, by decide⟩
  decide

/-- C1 (amended): the title precedence of `parseMarkdown` — a *truthy*
(non-empty) front-matter title wins and leaves the body untouched;
otherwise, if some depth-1 heading with a leading text-node child exists,
the *first* such heading's leading text value becomes the title and exactly
that one heading is removed (the qualifying-heading count drops by one, so
the title is not duplicated); otherwise the title is the fixed fallback
`"Untitled"` and the body is untouched. -/
theorem claim1_title_precedence_amended (fm : Option String) (tree : NodeF) :
    (titleTruthy fm = true → parseTitleCore fm tree = (fm.getD "", tree)) ∧
    (titleTruthy fm = false → hasTextH1 tree = false →
      parseTitleCore fm tree = ("Untitled", tree)) ∧
    (titleTruthy fm = false → hasTextH1 tree = true →
      ∃ v tr, extractH1 tree = some (v, tr) ∧
        parseTitleCore fm tree = (v, tr) ∧
        firstTextH1 tree = some v ∧
        countTextH1 tr + 1 = countTextH1 tree) := by
  refine ⟨?_, ?_, ?_⟩
  · intro h
    simp [parseTitleCore, h]
  · intro h hh
    have hx : extractH1 tree = none := (extractH1_none_iff tree).mpr hh
    simp [parseTitleCore, h, hx]
  · intro h hh
    have hne : extractH1 tree ≠ none := by
      rw [ne_eq, extractH1_none_iff tree, hh]
      simp
    cases hx : extractH1 tree with
    | none => exact absurd hx hne
    | some p =>
        obtain ⟨v, tr⟩ := p
        refine ⟨v, tr, rfl, ?_, ?_, ?_⟩
        · simp [parseTitleCore, h, hx]
        · have hf := extractH1_fst tree
          rw [hx] at hf
          simpa using hf.symm
        · exact extractH1_count tree v tr hx

/-- Witness for C1 (amended): the round-trip document — front-matter
`title: "X"` plus one paragraph — renders title exactly `"X"` with the body
(and its single paragraph) untouched. -/
theorem claim1_witness :
    parseTitleCore (some "X") roundTripTree = ("X", roundTripTree) := by
  have h := (claim1_title_precedence_amended (some "X") roundTripTree).1 (by decide)
  simpa using h

end M2P
